import Mathlib

/-!
Verification development for the rag-email-compliance-system repository.

The definitions below are a shallow embedding of the core of the system:
the risk scorer (src/utils/risk_calculator.py), the vector store manager
(src/vectorstore/vector_db.py), the retrieval layer (src/rag/retriever.py)
and the classification engine (src/rag/classifier.py).  Machine floats of
the source are modelled as rationals; the external language model and the
FAISS similarity ranking are modelled as explicit parameters.
-/

set_option maxHeartbeats 1000000

set_option allowUnsafeReducibility true in
attribute [semireducible] Rat.add Rat.mul Rat.sub Rat.inv

/-- Process-wide configuration relevant to the risk scorer, from class
Settings in src/config/settings.py: the list of trusted domains and the
category-to-weight table (a dict in the source, an association list here). -/
structure Settings where
  trusted_domains : List String
  weights : List (String × ℚ)
  deriving Repr, DecidableEq

/-- Split of a character list at every occurrence of a separator character,
the structural form of the python split on a one-character separator: the
empty input gives one empty piece, and every separator occurrence starts a
new piece. -/
def splitOnChar (sep : Char) : List Char → List (List Char)
  | [] => [[]]
  | c :: cs =>
    if c = sep then [] :: splitOnChar sep cs
    else
      match splitOnChar sep cs with
      | [] => [[c]]
      | piece :: pieces => (c :: piece) :: pieces

/-- Python str.strip on the character-list view of a string: drop leading
and trailing whitespace. -/
def pyStrip (s : String) : String :=
  ⟨((s.data.dropWhile Char.isWhitespace).reverse.dropWhile Char.isWhitespace).reverse⟩

/-- Python str.lower on the character-list view of a string. -/
def pyLower (s : String) : String :=
  ⟨s.data.map Char.toLower⟩

/-- Domain of an address, as in RiskCalculator.calculate_risk_score lines
23-24: the piece after the last at sign (the whole string when there is
no at sign), lower-cased.  The byte-position split of the runtime is
embedded as the equivalent structural split on the character list. -/
def emailDomain (addr : String) : String :=
  pyLower ⟨(splitOnChar '@' addr.data).getLastD []⟩

/-- The external-communication flag computed by the loop at lines 26-30 of
src/utils/risk_calculator.py: external_score starts at 0 and is set to 1,
with a break, at the FIRST trusted domain from which the sender domain or
the receiver domain differs.  The loop-with-break is the same function as
an existential test over the trusted-domain list. -/
def external_score (cfg : Settings) (sender_domain receiver_domain : String) : ℚ :=
  if cfg.trusted_domains.any (fun d => !(sender_domain == d) || !(receiver_domain == d))
  then 1 else 0

/-- Modelled from the spec, section 4.3 step 2 (this definition follows the
words of the specification, for comparison with external_score taken from
the code): the flag is 1 if, for EVERY configured trusted domain, the
sender domain or the receiver domain differs from it, i.e. the pair is not
confirmed as a same-trusted-domain internal exchange; else 0. -/
def external_score_spec (cfg : Settings) (sender_domain receiver_domain : String) : ℚ :=
  if cfg.trusted_domains.all (fun d => !(sender_domain == d) || !(receiver_domain == d))
  then 1 else 0

/-- Rounding to two decimal places, as the final round(risk_score, 2) of the
scorer, on the rational model of the values it produces. -/
def round2 (q : ℚ) : ℚ := ((round (q * 100) : ℤ) : ℚ) / 100

/-- RiskCalculator.calculate_risk_score (src/utils/risk_calculator.py lines
8-40): extract both domains, compute the external flag, add the configured
weight of every stripped category name found in the weight table, add the
flag, and round to two decimals. -/
def calculate_risk_score (cfg : Settings) (categories : List String)
    (sender receiver : String) : ℚ :=
  let sender_domain := emailDomain sender
  let receiver_domain := emailDomain receiver
  let ext := external_score cfg sender_domain receiver_domain
  let risk := categories.foldl
    (fun acc cat =>
      match cfg.weights.lookup (pyStrip cat) with
      | some w => acc + w
      | none => acc) 0
  round2 (risk + ext)

/-- A sequence of calls to the risk scorer within one process, each call a
triple of the categories, sender and receiver arguments, mapped to the
sequence of returned scores.  The scorer reads only the process-wide
read-only configuration and its arguments, so a call sequence is a map. -/
def score_calls (cfg : Settings) (calls : List (List String × String × String)) : List ℚ :=
  calls.map (fun c => calculate_risk_score cfg c.1 c.2.1 c.2.2)

/-- Configuration with two trusted domains, exhibiting the behaviour of the
external-flag loop when more than one trusted domain is configured. -/
def settingsXY : Settings := ⟨["x.com", "y.com"], [("Secrecy", 10)]⟩

/-- Configuration with a single trusted domain, as in the default
configuration of the repository. -/
def settingsX : Settings := ⟨["x.com"], [("Secrecy", 10)]⟩

/-- Category field of a parsed verdict or of stored metadata: the dynamic
value may arrive as a single string or as a list of strings. -/
inductive CatField where
  | str (s : String)
  | list (xs : List String)
  deriving DecidableEq, Repr

/-- Normalization of the parsed Category field in
EmailClassifier.classify_email lines 63-70: a missing field defaults to
Compliant; the literal nan placeholder or a falsy value (empty string,
empty list) becomes Compliant; after that, a list value is joined into a
comma-separated string for the downstream split. -/
def normalize_category (field : Option CatField) : String :=
  let category := field.getD (.str "Compliant")
  let category :=
    if category = .str "nan" ∨ category = .str "" ∨ category = .list []
    then CatField.str "Compliant" else category
  match category with
  | .str s => s
  | .list xs => String.intercalate ", " xs

/-- Value of the non_compliant field of a parsed verdict: the model may
return a string or a boolean; only equality with the exact string Yes is
ever tested. -/
inductive NCField where
  | str (s : String)
  | bool (b : Bool)
  deriving DecidableEq, Repr

/-- Line 72 of src/rag/classifier.py: the result is Non-Compliant exactly
when the parsed non_compliant field equals the string Yes, and Compliant
for every other value, a missing field included. -/
def classification_of (field : Option NCField) : String :=
  if field = some (.str "Yes") then "Non-Compliant" else "Compliant"

/-- A stored document: the page content and the Category metadata entry,
which the bootstrap placeholder does not carry. -/
structure Document where
  page_content : String
  category : Option CatField
  deriving DecidableEq, Repr

/-- VectorStoreManager._load_or_create (src/vectorstore/vector_db.py lines
18-33): an existing persisted index is loaded and used as-is; otherwise the
store is created from the single bootstrap text initialization, a
placeholder document with no metadata. -/
def load_or_create (persisted : Option (List Document)) : List Document :=
  match persisted with
  | some docs => docs
  | none => [⟨"initialization", none⟩]

/-- VectorStoreManager.similarity_search (lines 53-55): the FAISS search
returns the k documents nearest to the query.  The embedding distance is
external to this development, so a store is carried as its document list
ordered nearest-first for the query at hand, and the search returns the
first k of them, with no filtering of any kind; for the fresh store, which
holds a single document, this order is the only one possible. -/
def similarity_search (ranked_docs : List Document) (query : String) (k : Nat) :
    List Document :=
  ranked_docs.take k

/-- ComplianceRetriever.get_similar_emails (src/rag/retriever.py lines
26-47): the store search is attempted and its documents are returned; any
raised error is caught, logged and turned into the empty list.  The
fallible underlying search is passed as an explicit function. -/
def get_similar_emails (search : String → Except String (List Document)) (query : String) :
    List Document :=
  match search query with
  | .ok docs => docs
  | .error _ => []

/-- An underlying search that always fails, as when the persisted index
cannot be read. -/
def failing_search : String → Except String (List Document) :=
  fun _ => .error "StoreUnavailable"

/-- The category key of a candidate in get_diverse_examples lines 160-164:
the Category metadata defaults to the empty list; a list value is keyed by
the tuple of its sorted elements, any other value by the one-element tuple
of its string form. -/
def category_key (d : Document) : List String :=
  match d.category.getD (.list []) with
  | .str s => [s]
  | .list cs => List.insertionSort (fun a b => a ≤ b) cs

/-- First pass of get_diverse_examples (lines 158-171), over the candidates
in rank order, carrying the category keys seen so far and the count of
documents selected so far: a candidate with a fresh key is selected and its
key recorded, and the loop breaks as soon as k documents are selected. -/
def diverse_pass1 (k : Nat) : List Document → List (List String) → Nat → List Document
  | [], _, _ => []
  | d :: ds, seen, n =>
    if category_key d ∈ seen then diverse_pass1 k ds seen n
    else if k ≤ n + 1 then [d]
    else d :: diverse_pass1 k ds (category_key d :: seen) (n + 1)

/-- Second pass of get_diverse_examples (lines 173-179), over the
candidates in rank order again, carrying the documents selected so far: a
candidate not already selected is appended, and the loop breaks once the
selection reaches k documents.  The pass returns the appended documents. -/
def diverse_pass2 (k : Nat) : List Document → List Document → List Document
  | [], _ => []
  | d :: ds, acc =>
    if d ∈ acc then diverse_pass2 k ds acc
    else if k ≤ acc.length + 1 then [d]
    else d :: diverse_pass2 k ds (acc ++ [d])

/-- The two-pass selection of get_diverse_examples over a candidate list:
pass 1, then pass 2 exactly when fewer than k documents were selected. -/
def diverse_select (k : Nat) (cands : List Document) : List Document :=
  let d1 := diverse_pass1 k cands [] 0
  if d1.length < k then d1 ++ diverse_pass2 k cands d1 else d1

/-- ComplianceRetriever.get_diverse_examples (lines 139-186): over-fetch
the 2k nearest documents, then run the two-pass selection over them. -/
def get_diverse_examples (ranked_docs : List Document) (query : String) (k : Nat) :
    List Document :=
  diverse_select k (similarity_search ranked_docs query (2 * k))

/-- A query email row with the columns the classification engine reads. -/
structure Email where
  From : String
  To : String
  Subject : String
  Body : String
  deriving DecidableEq, Repr

/-- A per-email classification result, the dictionary built at lines 80-91
of src/rag/classifier.py. -/
structure ClassificationResult where
  Classification : String
  Category : String
  risk_score : ℚ
  From : String
  To : String
  Subject : String
  Body : String
  Reason : String
  Evidence : String
  Confidence : String
  deriving DecidableEq, Repr

/-- The per-email loop of classify_batch (lines 100-107): each email goes
through the per-email pipeline of retrieval, prompting, parsing and
scoring, which contains the external language model and is therefore passed
as an explicit fallible function; a successful result is appended and a
raised error is caught, logged and the email skipped. -/
def run_batch (classify : Email → Except String ClassificationResult) :
    List Email → List ClassificationResult
  | [] => []
  | e :: es =>
    match classify e with
    | .ok r => r :: run_batch classify es
    | .error _ => run_batch classify es

/-- Stable insertion into a list sorted by descending risk score: the new
element goes before the first element whose risk score is not larger, so
among equal scores an element coming earlier in the input stays earlier. -/
def insert_desc (x : ClassificationResult) :
    List ClassificationResult → List ClassificationResult
  | [] => [x]
  | y :: ys => if x.risk_score < y.risk_score then y :: insert_desc x ys else x :: y :: ys

/-- Stable sort by descending risk score, the denotation of the python
sorted call with a risk-score key and reverse set, which is guaranteed
stable: equal-score results keep their input order. -/
def sort_desc : List ClassificationResult → List ClassificationResult
  | [] => []
  | x :: xs => insert_desc x (sort_desc xs)

/-- EmailClassifier.classify_batch (lines 93-114): run the per-email loop
over the batch, filter the results to those classified Non-Compliant, and
stable-sort them by descending risk score. -/
def classify_batch (classify : Email → Except String ClassificationResult)
    (emails : List Email) : List ClassificationResult :=
  sort_desc ((run_batch classify emails).filter
    (fun r => r.Classification == "Non-Compliant"))

/-- Shorthand for a result whose fields beyond the ones the batch logic
inspects are fixed. -/
def mkResult (classification : String) (risk : ℚ) (body : String) : ClassificationResult :=
  ⟨classification, "Compliant", risk, "a@x.com", "b@x.com", "subj", body, "", "", ""⟩

/-- Shorthand for a demo email with a given body. -/
def demoEmail (body : String) : Email := ⟨"a@x.com", "b@x.com", "subj", body⟩

/-- A demo per-email pipeline: an email whose body is bad raises a
malformed-verdict error, every other email yields a non-compliant result of
risk 1. -/
def demo_classify : Email → Except String ClassificationResult :=
  fun e =>
    if e.Body = "bad" then .error "MalformedVerdict"
    else .ok (mkResult "Non-Compliant" 1 e.Body)

/-- A demo pipeline producing the risk scores 3, 9, 9, 1, 7 with the third
email the only compliant one replaced: here m4 is compliant and the two
score-9 results m2 and m3 are both non-compliant, so the tie between them
exercises stability. -/
def demo5_classify : Email → Except String ClassificationResult :=
  fun e =>
    if e.Body = "m1" then .ok (mkResult "Non-Compliant" 3 "m1")
    else if e.Body = "m2" then .ok (mkResult "Non-Compliant" 9 "m2")
    else if e.Body = "m3" then .ok (mkResult "Non-Compliant" 9 "m3")
    else if e.Body = "m4" then .ok (mkResult "Compliant" 1 "m4")
    else .ok (mkResult "Non-Compliant" 7 "m5")

/-- The five demo emails for the batch-ordering witness. -/
def demo5_emails : List Email :=
  [demoEmail "m1", demoEmail "m2", demoEmail "m3", demoEmail "m4", demoEmail "m5"]

/-- Demo candidates for diverse retrieval: two documents of category A and
one each of categories B and C, in rank order. -/
def docA1 : Document := ⟨"body a1", some (.str "A")⟩

/-- Second document of category A. -/
def docA2 : Document := ⟨"body a2", some (.str "A")⟩

/-- Document of category B. -/
def docB : Document := ⟨"body b", some (.str "B")⟩

/-- Document of category C. -/
def docC : Document := ⟨"body c", some (.str "C")⟩

/-- C1: the claim says the external flag is 1 only when, for every
configured trusted domain, the sender domain or the receiver domain differs
from it, so that a pair sharing the trusted domain x.com gets no flag point
even when y.com is also trusted.  The code disagrees: its loop sets the
flag as soon as SOME trusted domain differs from one of the two domains,
so with trusted domains x.com and y.com the internal exchange from a at
x.com to b at x.com is still flagged and scores 11 instead of 10; the
spec-modelled flag on the same pair is 0. -/
theorem calculate_risk_score_flags_shared_trusted_domain :
    calculate_risk_score settingsXY ["Secrecy"] "a@x.com" "b@x.com" = 11 ∧
    external_score_spec settingsXY "x.com" "x.com" = 0 ∧
    calculate_risk_score settingsX ["Secrecy"] "a@x.com" "b@x.com" = 10 := by
  refine ⟨by decide, by decide, by decide⟩

/-- The category loop of the scorer adds, to any accumulator, the sum of the
looked-up weights of the stripped category names found in the weight table. -/
theorem weight_foldl_eq (cfg : Settings) (cats : List String) :
    ∀ acc : ℚ,
      cats.foldl
        (fun acc cat =>
          match cfg.weights.lookup (pyStrip cat) with
          | some w => acc + w
          | none => acc) acc
      = acc + (cats.filterMap (fun c => cfg.weights.lookup (pyStrip c))).sum := by
  induction cats with
  | nil => intro acc; simp
  | cons c cs ih =>
    intro acc
    rw [List.foldl_cons, List.filterMap_cons]
    cases h : cfg.weights.lookup (pyStrip c) with
    | none => simp only [h, ih]
    | some w => simp only [h, ih, List.sum_cons]; ring

/-- Rounding to two decimals is the identity on 0. -/
theorem round2_zero : round2 0 = 0 := by decide

/-- Rounding to two decimals is the identity on 1. -/
theorem round2_one : round2 1 = 1 := by decide

/-- The external flag is always 0 or 1: at most one flag point is added. -/
theorem external_score_eq_zero_or_one (cfg : Settings) (sd rd : String) :
    external_score cfg sd rd = 0 ∨ external_score cfg sd rd = 1 := by
  unfold external_score
  split
  · exact Or.inr rfl
  · exact Or.inl rfl

/-- C8: the category-weight part of the score is the sum of the configured
weights of exactly the stripped category names found in the weight table
(first conjunct), and when every input category is absent from the table the
score equals the external-flag-only value, which is also the score of the
empty category list (second conjunct): unknown names contribute zero and
raise no error. -/
theorem calculate_risk_score_weight_sum :
    (∀ (cfg : Settings) (cats : List String) (s r : String),
       calculate_risk_score cfg cats s r
         = round2 ((cats.filterMap (fun c => cfg.weights.lookup (pyStrip c))).sum
             + external_score cfg (emailDomain s) (emailDomain r))) ∧
    (∀ (cfg : Settings) (cats : List String) (s r : String),
       (∀ c ∈ cats, cfg.weights.lookup (pyStrip c) = none) →
       calculate_risk_score cfg cats s r
         = external_score cfg (emailDomain s) (emailDomain r) ∧
       calculate_risk_score cfg cats s r = calculate_risk_score cfg [] s r) := by
  have base : ∀ (cfg : Settings) (cats : List String) (s r : String),
      calculate_risk_score cfg cats s r
        = round2 ((cats.filterMap (fun c => cfg.weights.lookup (pyStrip c))).sum
            + external_score cfg (emailDomain s) (emailDomain r)) := by
    intro cfg cats s r
    unfold calculate_risk_score
    rw [weight_foldl_eq, zero_add]
  refine ⟨base, ?_⟩
  intro cfg cats s r h
  have hnil : cats.filterMap (fun c => cfg.weights.lookup (pyStrip c)) = [] := by
    simp only [List.filterMap_eq_nil_iff]
    exact h
  have hflag : calculate_risk_score cfg cats s r
      = external_score cfg (emailDomain s) (emailDomain r) := by
    rw [base, hnil]
    rcases external_score_eq_zero_or_one cfg (emailDomain s) (emailDomain r) with h0 | h1
    · rw [h0]; simpa using round2_zero
    · rw [h1]; simpa using round2_one
  refine ⟨hflag, ?_⟩
  rw [hflag, base cfg [] s r]
  simp only [List.filterMap_nil, List.sum_nil, zero_add]
  rcases external_score_eq_zero_or_one cfg (emailDomain s) (emailDomain r) with h0 | h1
  · rw [h0, round2_zero]
  · rw [h1, round2_one]

/-- Witness for C8: the single category Unknown is absent from the weight
table of settingsX, and the score on it equals the external-flag-only value
and the empty-category score. -/
theorem calculate_risk_score_weight_sum_witness :
    (∀ c ∈ ["Unknown"], settingsX.weights.lookup (pyStrip c) = none) ∧
    (calculate_risk_score settingsX ["Unknown"] "a@x.com" "b@y.com"
       = external_score settingsX (emailDomain "a@x.com") (emailDomain "b@y.com") ∧
     calculate_risk_score settingsX ["Unknown"] "a@x.com" "b@y.com"
       = calculate_risk_score settingsX [] "a@x.com" "b@y.com") :=
  ⟨by decide,
   calculate_risk_score_weight_sum.2 settingsX ["Unknown"] "a@x.com" "b@y.com" (by decide)⟩

/-- C9: the scorer is deterministic and keeps no hidden state between calls
within one process: the result of a call is a function of the process-wide
configuration and the call arguments only, so the last call of any two call
sequences that end in the same arguments returns the same score, whatever
the earlier call histories were. -/
theorem score_calls_deterministic :
    ∀ (cfg : Settings) (h₁ h₂ : List (List String × String × String))
      (cats : List String) (s r : String),
      (score_calls cfg (h₁ ++ [(cats, s, r)])).getLast?
        = (score_calls cfg (h₂ ++ [(cats, s, r)])).getLast? := by
  intro cfg h₁ h₂ cats s r
  simp [score_calls]

/-- C2 counterexample: the claim says every similarity search on a freshly
created store returns zero records to the caller, the placeholder excluded;
but the code applies no exclusion, and a search on the fresh store returns
the bootstrap placeholder document itself. -/
theorem fresh_store_search_nonempty :
    (similarity_search (load_or_create none) "hello" 3).length = 1 ∧
    Document.mk "initialization" none ∈ similarity_search (load_or_create none) "hello" 3 := by
  exact ⟨rfl, by decide⟩

/-- C2 amended: a freshly created store with no persisted index holds
exactly the bootstrap placeholder document with text initialization and no
metadata; similarity search performs no exclusion, so for every query and
every positive k it returns exactly that placeholder document, and the
caller receives one record, not zero. -/
theorem fresh_store_search_returns_placeholder (query : String) (k : Nat) (hk : 1 ≤ k) :
    similarity_search (load_or_create none) query k = [Document.mk "initialization" none] := by
  cases k with
  | zero => omega
  | succ n => simp [similarity_search, load_or_create]

/-- Witness for the amended C2 at the query hello and k equal to 3. -/
theorem fresh_store_search_returns_placeholder_witness :
    1 ≤ 3 ∧
    similarity_search (load_or_create none) "hello" 3 = [Document.mk "initialization" none] :=
  ⟨by decide, fresh_store_search_returns_placeholder "hello" 3 (by decide)⟩

/-- C7: get_similar_emails never propagates a store failure: when the
underlying search raises, the result is the empty list, and when it
succeeds, its documents are returned unchanged, so classification is never
aborted by a retrieval failure. -/
theorem get_similar_emails_catches_errors
    (search : String → Except String (List Document)) (query : String) :
    (∀ msg, search query = .error msg → get_similar_emails search query = []) ∧
    (∀ docs, search query = .ok docs → get_similar_emails search query = docs) := by
  constructor
  · intro msg h
    unfold get_similar_emails
    rw [h]
  · intro docs h
    unfold get_similar_emails
    rw [h]

/-- Witness for C7: a search that always raises StoreUnavailable yields the
empty document list. -/
theorem get_similar_emails_catches_errors_witness :
    failing_search "q" = .error "StoreUnavailable" ∧
    get_similar_emails failing_search "q" = [] :=
  ⟨rfl, (get_similar_emails_catches_errors failing_search "q").1 "StoreUnavailable" rfl⟩

/-- C6: normalization of the parsed category field: a non-empty list is
joined into a comma-separated string; the literal nan placeholder, the
empty string, the empty list and a missing field all normalize to
Compliant; any other plain string passes through unchanged. -/
theorem normalize_category_shapes :
    (∀ xs : List String, xs ≠ [] →
       normalize_category (some (.list xs)) = String.intercalate ", " xs) ∧
    normalize_category (some (.str "nan")) = "Compliant" ∧
    normalize_category (some (.str "")) = "Compliant" ∧
    normalize_category (some (.list [])) = "Compliant" ∧
    normalize_category none = "Compliant" ∧
    (∀ s : String, s ≠ "nan" → s ≠ "" → normalize_category (some (.str s)) = s) := by
  refine ⟨?_, by decide, by decide, by decide, by decide, ?_⟩
  · intro xs hxs
    simp [normalize_category, hxs]
  · intro s h1 h2
    simp [normalize_category, h1, h2]

/-- Witness for C6: a two-element category list is joined with a comma and
a space, and a plain category string passes through. -/
theorem normalize_category_shapes_witness :
    (["Secrecy", "Gossip"] ≠ ([] : List String)) ∧
    normalize_category (some (.list ["Secrecy", "Gossip"])) = "Secrecy, Gossip" ∧
    normalize_category (some (.str "Secrecy")) = "Secrecy" := by
  refine ⟨by decide, ?_, ?_⟩
  · rw [normalize_category_shapes.1 ["Secrecy", "Gossip"] (by decide)]
    rfl
  · exact normalize_category_shapes.2.2.2.2.2 "Secrecy" (by decide) (by decide)

/-- Inserting into a list permutes to consing. -/
theorem perm_insert_desc (x : ClassificationResult) (l : List ClassificationResult) :
    (insert_desc x l).Perm (x :: l) := by
  induction l with
  | nil => exact List.Perm.refl _
  | cons y ys ih =>
    simp only [insert_desc]
    split
    · exact (ih.cons y).trans (List.Perm.swap x y ys)
    · exact List.Perm.refl _

/-- The stable descending sort permutes its input. -/
theorem perm_sort_desc (l : List ClassificationResult) : (sort_desc l).Perm l := by
  induction l with
  | nil => exact List.Perm.refl _
  | cons x xs ih =>
    simp only [sort_desc]
    exact (perm_insert_desc x (sort_desc xs)).trans (ih.cons x)

/-- Inserting into a descending-sorted list keeps it descending-sorted. -/
theorem pairwise_insert_desc (x : ClassificationResult) (l : List ClassificationResult)
    (h : l.Pairwise (fun a b => b.risk_score ≤ a.risk_score)) :
    (insert_desc x l).Pairwise (fun a b => b.risk_score ≤ a.risk_score) := by
  induction l with
  | nil => simp [insert_desc]
  | cons y ys ih =>
    rcases List.pairwise_cons.mp h with ⟨hy, hys⟩
    simp only [insert_desc]
    split
    · rename_i hlt
      refine List.Pairwise.cons ?_ (ih hys)
      intro b hb
      rcases List.mem_cons.mp ((perm_insert_desc x ys).mem_iff.mp hb) with rfl | hbys
      · exact le_of_lt hlt
      · exact hy b hbys
    · rename_i hnlt
      refine List.Pairwise.cons ?_ (List.Pairwise.cons hy hys)
      intro b hb
      rcases List.mem_cons.mp hb with rfl | hbys
      · exact not_lt.mp hnlt
      · exact le_trans (hy b hbys) (not_lt.mp hnlt)

/-- The stable descending sort sorts by descending risk score. -/
theorem pairwise_sort_desc (l : List ClassificationResult) :
    (sort_desc l).Pairwise (fun a b => b.risk_score ≤ a.risk_score) := by
  induction l with
  | nil => simp [sort_desc]
  | cons x xs ih =>
    simp only [sort_desc]
    exact pairwise_insert_desc x (sort_desc xs) ih

/-- Stability of the insertion, seen through fixed-score filtering: the
elements of one risk score keep their relative order, with the inserted
element in front of the equal-score ones already present. -/
theorem filter_insert_desc (x : ClassificationResult) (l : List ClassificationResult) (v : ℚ) :
    (insert_desc x l).filter (fun r => decide (r.risk_score = v))
      = if x.risk_score = v
        then x :: l.filter (fun r => decide (r.risk_score = v))
        else l.filter (fun r => decide (r.risk_score = v)) := by
  induction l with
  | nil =>
    by_cases hx : x.risk_score = v <;> simp [insert_desc, hx]
  | cons y ys ih =>
    simp only [insert_desc]
    split
    · rename_i hlt
      by_cases hx : x.risk_score = v
      · have hyne : ¬ y.risk_score = v := by
          rw [hx] at hlt
          exact ne_of_gt hlt
        simp [List.filter_cons, hx, hyne, ih]
      · by_cases hy : y.risk_score = v <;> simp [List.filter_cons, hx, hy, ih]
    · by_cases hx : x.risk_score = v <;> by_cases hy : y.risk_score = v <;>
        simp [List.filter_cons, hx, hy]

/-- Stability of the stable descending sort: for every fixed risk score,
filtering the sorted list to that score gives the same sequence as
filtering the input, so equal-score elements keep their input order. -/
theorem filter_sort_desc (l : List ClassificationResult) (v : ℚ) :
    (sort_desc l).filter (fun r => decide (r.risk_score = v))
      = l.filter (fun r => decide (r.risk_score = v)) := by
  induction l with
  | nil => rfl
  | cons x xs ih =>
    simp only [sort_desc]
    rw [filter_insert_desc, List.filter_cons]
    by_cases hx : x.risk_score = v <;> simp [hx, ih]

/-- Every result returned by classify_batch is classified Non-Compliant. -/
theorem mem_classify_batch_nonCompliant
    (classify : Email → Except String ClassificationResult) (emails : List Email)
    (r : ClassificationResult) (hr : r ∈ classify_batch classify emails) :
    r.Classification = "Non-Compliant" := by
  have h1 : r ∈ (run_batch classify emails).filter
      (fun s => s.Classification == "Non-Compliant") :=
    (perm_sort_desc _).mem_iff.mp hr
  exact eq_of_beq (List.mem_filter.mp h1).2

/-- C3: classify_batch returns exactly the per-email results classified
Non-Compliant (a permutation of that filtered subset, with every returned
result Non-Compliant), sorted by descending risk score, and the sort is
stable: for every fixed score, the returned results of that score are
exactly the filtered results of that score in their original input order. -/
theorem classify_batch_filters_and_sorts
    (classify : Email → Except String ClassificationResult) (emails : List Email) :
    (classify_batch classify emails).Perm
      ((run_batch classify emails).filter (fun r => r.Classification == "Non-Compliant")) ∧
    (∀ r ∈ classify_batch classify emails, r.Classification = "Non-Compliant") ∧
    (classify_batch classify emails).Pairwise (fun a b => b.risk_score ≤ a.risk_score) ∧
    (∀ v : ℚ, (classify_batch classify emails).filter (fun r => decide (r.risk_score = v))
        = ((run_batch classify emails).filter
            (fun r => r.Classification == "Non-Compliant")).filter
            (fun r => decide (r.risk_score = v))) := by
  refine ⟨perm_sort_desc _, ?_, pairwise_sort_desc _, fun v => filter_sort_desc _ v⟩
  intro r hr
  exact mem_classify_batch_nonCompliant classify emails r hr

/-- Witness for C3 on a five-email demo batch with risk scores 3, 9, 9, 1,
7 where the 1 is the only compliant result: the batch returns the four
non-compliant results sorted 9, 9, 7, 3 with the tied nines in input
order. -/
theorem classify_batch_filters_and_sorts_witness :
    (mkResult "Non-Compliant" 9 "m2").Classification = "Non-Compliant" ∧
    (classify_batch demo5_classify demo5_emails).filter (fun r => decide (r.risk_score = 9))
      = ((run_batch demo5_classify demo5_emails).filter
          (fun r => r.Classification == "Non-Compliant")).filter
          (fun r => decide (r.risk_score = 9)) ∧
    classify_batch demo5_classify demo5_emails
      = [mkResult "Non-Compliant" 9 "m2", mkResult "Non-Compliant" 9 "m3",
         mkResult "Non-Compliant" 7 "m5", mkResult "Non-Compliant" 3 "m1"] :=
  ⟨(classify_batch_filters_and_sorts demo5_classify demo5_emails).2.1
     (mkResult "Non-Compliant" 9 "m2") (by decide),
   (classify_batch_filters_and_sorts demo5_classify demo5_emails).2.2.2 9,
   by decide⟩

/-- The per-email loop distributes over batch concatenation. -/
theorem run_batch_append (classify : Email → Except String ClassificationResult)
    (l₁ l₂ : List Email) :
    run_batch classify (l₁ ++ l₂) = run_batch classify l₁ ++ run_batch classify l₂ := by
  induction l₁ with
  | nil => rfl
  | cons e es ih =>
    simp only [List.cons_append, run_batch]
    cases classify e <;> simp [ih]

/-- C5: a per-email failure is caught and isolated: when the pipeline
raises on one email of a batch, classify_batch returns exactly the result
it returns on the batch with that email removed, so the failed email is
excluded and every other email still produces its result, with nothing
propagated. -/
theorem classify_batch_isolates_failures
    (classify : Email → Except String ClassificationResult)
    (xs ys : List Email) (e : Email) (msg : String)
    (h : classify e = .error msg) :
    classify_batch classify (xs ++ e :: ys) = classify_batch classify (xs ++ ys) := by
  unfold classify_batch
  rw [run_batch_append, run_batch_append]
  simp only [run_batch, h]

/-- Witness for C5: in a five-email demo batch whose third email raises a
malformed-verdict error, the batch result equals that of the other four
emails alone. -/
theorem classify_batch_isolates_failures_witness :
    demo_classify (demoEmail "bad") = .error "MalformedVerdict" ∧
    classify_batch demo_classify
        [demoEmail "e1", demoEmail "e2", demoEmail "bad", demoEmail "e4", demoEmail "e5"]
      = classify_batch demo_classify
        [demoEmail "e1", demoEmail "e2", demoEmail "e4", demoEmail "e5"] := by
  refine ⟨rfl, ?_⟩
  have h := classify_batch_isolates_failures demo_classify
    [demoEmail "e1", demoEmail "e2"] [demoEmail "e4", demoEmail "e5"]
    (demoEmail "bad") "MalformedVerdict" rfl
  simpa using h

/-- C10: the classification decision is computed by an exact string
comparison: Non-Compliant exactly when the parsed non_compliant field is
the string Yes; the casing variant yes, the boolean true, the string No and
a missing field all give Compliant, and a result classified Compliant never
appears in the batch violations list. -/
theorem classification_requires_exact_yes :
    (∀ v : Option NCField, classification_of v = "Non-Compliant" ↔ v = some (.str "Yes")) ∧
    classification_of (some (.str "yes")) = "Compliant" ∧
    classification_of (some (.bool true)) = "Compliant" ∧
    classification_of (some (.str "No")) = "Compliant" ∧
    classification_of none = "Compliant" ∧
    (∀ (classify : Email → Except String ClassificationResult) (emails : List Email)
       (r : ClassificationResult), r.Classification = "Compliant" →
       r ∉ classify_batch classify emails) := by
  refine ⟨?_, by decide, by decide, by decide, by decide, ?_⟩
  · intro v
    constructor
    · intro h
      by_contra hv
      simp only [classification_of, if_neg hv] at h
      exact absurd h (by decide)
    · intro hv
      simp only [classification_of, if_pos hv]
  · intro classify emails r hC hmem
    have h := mem_classify_batch_nonCompliant classify emails r hmem
    rw [hC] at h
    exact absurd h (by decide)

/-- Witness for C10: the exact string Yes gives Non-Compliant, and a
concrete compliant result is not among the results of a demo batch. -/
theorem classification_requires_exact_yes_witness :
    classification_of (some (.str "Yes")) = "Non-Compliant" ∧
    (mkResult "Compliant" 1 "c").Classification = "Compliant" ∧
    mkResult "Compliant" 1 "c" ∉ classify_batch demo_classify [demoEmail "e1"] :=
  ⟨(classification_requires_exact_yes.1 (some (.str "Yes"))).mpr rfl,
   rfl,
   classification_requires_exact_yes.2.2.2.2.2 demo_classify [demoEmail "e1"]
     (mkResult "Compliant" 1 "c") rfl⟩

/-- First-pass selections are a subsequence of the candidates, so rank
order is preserved. -/
theorem diverse_pass1_sublist (k : Nat) :
    ∀ (ds : List Document) (seen : List (List String)) (n : Nat),
      (diverse_pass1 k ds seen n).Sublist ds
  | [], _, _ => by simp [diverse_pass1]
  | d :: ds, seen, n => by
    simp only [diverse_pass1]
    split
    · exact (diverse_pass1_sublist k ds seen n).cons d
    · split
      · exact (List.nil_sublist ds).cons₂ d
      · exact (diverse_pass1_sublist k ds (category_key d :: seen) (n + 1)).cons₂ d

/-- First-pass selections carry pairwise distinct category keys, none of
them already seen. -/
theorem diverse_pass1_keys (k : Nat) :
    ∀ (ds : List Document) (seen : List (List String)) (n : Nat),
      ((diverse_pass1 k ds seen n).map category_key).Nodup ∧
      ∀ key ∈ (diverse_pass1 k ds seen n).map category_key, key ∉ seen
  | [], _, _ => by simp [diverse_pass1]
  | d :: ds, seen, n => by
    simp only [diverse_pass1]
    split
    · exact diverse_pass1_keys k ds seen n
    · rename_i h1
      split
      · refine ⟨by simp, ?_⟩
        intro key hkey
        simp only [List.map_cons, List.map_nil, List.mem_singleton] at hkey
        subst hkey
        exact h1
      · obtain ⟨ihnd, ihseen⟩ := diverse_pass1_keys k ds (category_key d :: seen) (n + 1)
        refine ⟨?_, ?_⟩
        · simp only [List.map_cons, List.nodup_cons]
          refine ⟨?_, ihnd⟩
          intro hmem
          exact (ihseen (category_key d) hmem) (List.mem_cons_self _ _)
        · intro key hkey
          simp only [List.map_cons, List.mem_cons] at hkey
          rcases hkey with rfl | hkey
          · exact h1
          · intro hk
            exact (ihseen key hkey) (List.mem_cons_of_mem _ hk)

/-- The first pass never selects more than the remaining slots. -/
theorem diverse_pass1_length (k : Nat) :
    ∀ (ds : List Document) (seen : List (List String)) (n : Nat), n < k →
      (diverse_pass1 k ds seen n).length + n ≤ k
  | [], _, n, h => by
    simp only [diverse_pass1, List.length_nil]
    omega
  | d :: ds, seen, n, h => by
    simp only [diverse_pass1]
    split
    · exact diverse_pass1_length k ds seen n h
    · split
      · rename_i h2
        simp only [List.length_singleton]
        omega
      · rename_i h2
        have ih := diverse_pass1_length k ds (category_key d :: seen) (n + 1) (by omega)
        simp only [List.length_cons]
        omega

/-- The second pass, started below the slot limit on duplicate-free
candidates, appends exactly the highest-ranked unused candidates, in rank
order, until the slots fill or the candidates run out. -/
theorem diverse_pass2_eq (k : Nat) :
    ∀ (ds acc : List Document), ds.Nodup → acc.length < k →
      diverse_pass2 k ds acc
        = (ds.filter (fun d => decide (d ∉ acc))).take (k - acc.length)
  | [], acc, _, _ => by simp [diverse_pass2]
  | d :: ds, acc, hnd, hacc => by
    obtain ⟨hd, hnd2⟩ := List.nodup_cons.mp hnd
    simp only [diverse_pass2]
    split
    · rename_i h1
      rw [diverse_pass2_eq k ds acc hnd2 hacc, List.filter_cons]
      simp [h1]
    · rename_i h1
      rw [List.filter_cons]
      split
      · rename_i h2
        have hk1 : k - acc.length = 1 := by omega
        simp [h1, hk1]
      · rename_i h2
        have hlen2 : (acc ++ [d]).length < k := by
          simp only [List.length_append, List.length_singleton]
          omega
        rw [diverse_pass2_eq k ds (acc ++ [d]) hnd2 hlen2]
        have heq : ds.filter (fun x => decide (x ∉ acc ++ [d]))
            = ds.filter (fun x => decide (x ∉ acc)) := by
          apply List.filter_congr
          intro x hx
          have hxd : x ≠ d := fun hh => hd (hh ▸ hx)
          simp [List.mem_append, hxd]
        have hk2 : k - acc.length = (k - (acc ++ [d]).length) + 1 := by
          simp only [List.length_append, List.length_singleton]
          omega
        simp only [heq, hk2]
        simp [h1]

/-- Filtering duplicate-free candidates to the members of one of their
subsequences recovers that subsequence. -/
theorem filter_mem_of_sublist :
    ∀ {l₁ l₂ : List Document}, l₁.Sublist l₂ → l₂.Nodup →
      l₂.filter (fun d => decide (d ∈ l₁)) = l₁ := by
  intro l₁ l₂ h
  induction h with
  | slnil => intro _; rfl
  | @cons m₁ m₂ a hsub ih =>
    intro hnd
    obtain ⟨ha, hnd2⟩ := List.nodup_cons.mp hnd
    have hna : a ∉ m₁ := fun hmem => ha (hsub.subset hmem)
    rw [List.filter_cons]
    simp [hna, ih hnd2]
  | @cons₂ m₁ m₂ a hsub ih =>
    intro hnd
    obtain ⟨ha, hnd2⟩ := List.nodup_cons.mp hnd
    have heq : m₂.filter (fun d => decide (d ∈ a :: m₁))
        = m₂.filter (fun d => decide (d ∈ m₁)) := by
      apply List.filter_congr
      intro x hx
      have hxa : x ≠ a := fun hh => ha (hh ▸ hx)
      simp [hxa]
    have hstep : (a :: m₂).filter (fun d => decide (d ∈ a :: m₁))
        = a :: m₂.filter (fun d => decide (d ∈ a :: m₁)) := by
      rw [List.filter_cons]
      simp
    rw [hstep, heq, ih hnd2]

/-- A filter and its negation split the length of a list. -/
theorem length_filter_split (p : Document → Bool) :
    ∀ l : List Document,
      (l.filter p).length + (l.filter (fun x => !(p x))).length = l.length := by
  intro l
  induction l with
  | nil => rfl
  | cons a l ih =>
    cases hpa : p a <;> simp [List.filter_cons, hpa] <;> omega

/-- C4: get_diverse_examples over-fetches the 2k nearest candidates and
runs the two-pass selection (first conjunct, by definition); over any
duplicate-free candidate list in rank order, the first pass is a
subsequence of the candidates with pairwise distinct category keys and at
most k documents, the result is the first pass followed by the
highest-ranked unused candidates in rank order up to the k slots, and the
result holds min k n documents for n candidates. -/
theorem get_diverse_examples_two_pass (k : Nat) (cands : List Document)
    (hk : 1 ≤ k) (hnd : cands.Nodup) :
    (∀ (ranked : List Document) (q : String),
       get_diverse_examples ranked q k = diverse_select k (ranked.take (2 * k))) ∧
    (diverse_pass1 k cands [] 0).Sublist cands ∧
    ((diverse_pass1 k cands [] 0).map category_key).Nodup ∧
    (diverse_pass1 k cands [] 0).length ≤ k ∧
    diverse_select k cands
      = diverse_pass1 k cands [] 0
        ++ (cands.filter (fun d => decide (d ∉ diverse_pass1 k cands [] 0))).take
            (k - (diverse_pass1 k cands [] 0).length) ∧
    (diverse_select k cands).length = min k cands.length := by
  have hsub := diverse_pass1_sublist k cands [] 0
  have hkeys := (diverse_pass1_keys k cands [] 0).1
  have hlen : (diverse_pass1 k cands [] 0).length ≤ k := by
    have h0 := diverse_pass1_length k cands [] 0 (by omega)
    omega
  have hlc : (diverse_pass1 k cands [] 0).length ≤ cands.length := hsub.length_le
  have hflen : (cands.filter (fun d => decide (d ∉ diverse_pass1 k cands [] 0))).length
      = cands.length - (diverse_pass1 k cands [] 0).length := by
    have hsplit := length_filter_split
      (fun d => decide (d ∈ diverse_pass1 k cands [] 0)) cands
    have hmem := filter_mem_of_sublist hsub hnd
    rw [hmem] at hsplit
    have hpred : (cands.filter (fun d => decide (d ∉ diverse_pass1 k cands [] 0)))
        = (cands.filter (fun x => !(decide (x ∈ diverse_pass1 k cands [] 0)))) := by
      simp only [decide_not]
    rw [hpred]
    omega
  have heq : diverse_select k cands
      = diverse_pass1 k cands [] 0
        ++ (cands.filter (fun d => decide (d ∉ diverse_pass1 k cands [] 0))).take
            (k - (diverse_pass1 k cands [] 0).length) := by
    unfold diverse_select
    by_cases hlt : (diverse_pass1 k cands [] 0).length < k
    · rw [if_pos hlt, diverse_pass2_eq k cands (diverse_pass1 k cands [] 0) hnd hlt]
    · rw [if_neg hlt]
      have h0 : k - (diverse_pass1 k cands [] 0).length = 0 := by omega
      rw [h0]
      simp
  refine ⟨fun ranked q => rfl, hsub, hkeys, hlen, heq, ?_⟩
  rw [heq]
  rw [List.length_append, List.length_take, hflen]
  omega

/-- Witness for C4 on candidates of category sets A, A, B, C in rank order
with three slots: the selection returns one document each of A, B and C. -/
theorem get_diverse_examples_two_pass_witness :
    (1 ≤ 3 ∧ ([docA1, docA2, docB, docC] : List Document).Nodup) ∧
    diverse_select 3 [docA1, docA2, docB, docC] = [docA1, docB, docC] ∧
    (diverse_select 3 [docA1, docA2, docB, docC]).length
      = min 3 ([docA1, docA2, docB, docC] : List Document).length :=
  ⟨⟨by decide, by decide⟩,
   by decide,
   (get_diverse_examples_two_pass 3 [docA1, docA2, docB, docC]
      (by decide) (by decide)).2.2.2.2.2⟩
